import Mathlib

/-!
Verification of the SQL-agent pipeline (table validation, qualification,
guarded execution, input gating and numeric formatting) against its
natural-language specification.  The definitions below are a shallow
embedding of the TypeScript source: JS strings become `String`/`List Char`,
the regular-expression scans become explicit character scanners with the
same word-boundary and greediness semantics (JS `\w`, `\b`, `\s` are
ASCII-interpreted as in the source's patterns), JS `Set` becomes an
insertion-ordered duplicate-free list, and the database / pipeline
capabilities become explicit function parameters whose invocations are
recorded.
-/

namespace SqlAgent

/-! ## Character classes (ASCII semantics of the source's regexes) -/

/-- JS regex `\w` : `[A-Za-z0-9_]`. -/
def isWordChar (c : Char) : Bool :=
  ('a' ≤ c && c ≤ 'z') || ('A' ≤ c && c ≤ 'Z') || ('0' ≤ c && c ≤ '9') || c == '_'

/-- The identifier head class `[a-zA-Z_]` used by the source's regexes. -/
def isIdentStart (c : Char) : Bool :=
  ('a' ≤ c && c ≤ 'z') || ('A' ≤ c && c ≤ 'Z') || c == '_'

/-- JS regex `\s` restricted to the ASCII whitespace characters. -/
def isJsSpace (c : Char) : Bool :=
  c == ' ' || c == '\t' || c == '\n' || c == '\r' || c == '\x0b' || c == '\x0c'

/-- JS `String.prototype.toLowerCase` on the ASCII fragment. -/
def jsLower (s : String) : String :=
  String.mk (s.data.map Char.toLower)

/-! ## List helpers shared by the scanners -/

/-- Split off the maximal prefix of characters satisfying `p`
(the greedy `p*` of a regex): returns `(run, rest)` with `run ++ rest = l`. -/
def splitRun (p : Char → Bool) : List Char → List Char × List Char
  | [] => ([], [])
  | c :: cs =>
    if p c then
      let r := splitRun p cs
      (c :: r.1, r.2)
    else ([], c :: cs)

/-- JS `String.prototype.split('.')` on character lists. -/
def splitDot : List Char → List (List Char)
  | [] => [[]]
  | c :: cs =>
    let r := splitDot cs
    if c = '.' then [] :: r
    else
      match r with
      | h :: t => (c :: h) :: t
      | [] => [[c]]

/-- JS `Set.prototype.add`: append iff not already present (insertion order kept). -/
def setAdd (s : List String) (x : String) : List String :=
  if s.contains x then s else s ++ [x]

/-- Adding a whole list of elements to a JS `Set`. -/
def setAddAll (s : List String) (xs : List String) : List String :=
  xs.foldl setAdd s

/-- `new Set(xs)` as an insertion-ordered duplicate-free list. -/
def dedupKeep (xs : List String) : List String :=
  setAddAll [] xs

/-- JS `String.prototype.endsWith`. -/
def endsWithS (s suffix : String) : Bool :=
  suffix.data.isSuffixOf s.data

/-! ## Phase 1 of `validateSqlTables`: the full-text scan
`/\b([a-zA-Z_][\w]*)\.([a-zA-Z_][\w]*)\b/g`.

The global `exec` loop is a left-to-right scan with a word-boundary
condition at the match start; greediness of `[\w]*` makes the matcher
deterministic, so it is embedded as a character-driven state machine.
Buffers are accumulated in reverse and reversed on emission. -/

inductive P1 where
  | out (prevWord : Bool)
  | id1 (b1 : List Char)
  | dot (b1 : List Char)
  | id2 (b1 b2 : List Char)

/-- One transition of the phase-1 scanner; emits a completed
`identifier.identifier` match when one ends at this character. -/
def p1Step (st : P1) (c : Char) : P1 × Option (List Char × List Char) :=
  match st with
  | .out pw =>
    if !pw && isIdentStart c then (.id1 [c], none) else (.out (isWordChar c), none)
  | .id1 b1 =>
    if isWordChar c then (.id1 (c :: b1), none)
    else if c = '.' then (.dot b1, none)
    else (.out false, none)
  | .dot b1 =>
    if isIdentStart c then (.id2 b1 [c], none)
    else (.out (isWordChar c), none)
  | .id2 b1 b2 =>
    if isWordChar c then (.id2 b1 (c :: b2), none)
    else (.out false, some (b1.reverse, b2.reverse))

/-- Run the phase-1 scanner; a pending second identifier at end of input is
a match (the trailing `\b` holds at end of string after a word character). -/
def p1Run (st : P1) : List Char → List (List Char × List Char)
  | [] =>
    match st with
    | .id2 b1 b2 => [(b1.reverse, b2.reverse)]
    | _ => []
  | c :: cs =>
    match p1Step st c with
    | (st2, some t) => t :: p1Run st2 cs
    | (st2, none) => p1Run st2 cs

/-- All `schema.table`-shaped tokens of the full-text scan, lower-cased, in
match order (duplicates not yet removed). -/
def phase1Tokens (sql : List Char) : List String :=
  (p1Run (.out false) sql).map fun t =>
    String.mk (t.1.map Char.toLower) ++ "." ++ String.mk (t.2.map Char.toLower)

/-! ## The FROM/JOIN fallback scan of `validateSqlTables`:
`/\b(FROM|JOIN)\s+(("[^"]+")\.("[^"]+")|("[^"]+")|([a-zA-Z_][\w]*)(?:\.([a-zA-Z_][\w]*))?)/gi`. -/

/-- Case-insensitive literal match (the pattern is given lower-case):
returns the remaining input on success. -/
def matchCI : List Char → List Char → Option (List Char)
  | [], l => some l
  | _ :: _, [] => none
  | k :: ks, c :: cs => if c.toLower = k then matchCI ks cs else none

/-- Case-sensitive literal match: returns the remaining input on success. -/
def matchLit : List Char → List Char → Option (List Char)
  | [], l => some l
  | _ :: _, [] => none
  | k :: ks, c :: cs => if c = k then matchLit ks cs else none

/-- A quoted chunk `"[^"]+"`: returns `(inner, rest)`. -/
def quotedChunk : List Char → Option (List Char × List Char)
  | c :: cs =>
    if c = '"' then
      match splitRun (fun d => d != '"') cs with
      | ([], _) => none
      | (run, rest) =>
        match rest with
        | r :: rs => if r = '"' then some (run, rs) else none
        | [] => none
    else none
  | [] => none

/-- `\s+`: at least one whitespace character, taken greedily. -/
def takeSpaces1 : List Char → Option (List Char × List Char)
  | c :: cs =>
    if isJsSpace c then
      let r := splitRun isJsSpace cs
      some (c :: r.1, r.2)
    else none
  | [] => none

/-- The validator's target alternation (quoted pair, single quoted chunk, or
bare identifier with optional dotted second identifier), in the regex's
alternative order.  Returns the raw matched text and the rest. -/
def vTarget : List Char → Option (List Char × List Char)
  | [] => none
  | c :: cs =>
    if c = '"' then
      match quotedChunk (c :: cs) with
      | none => none
      | some (s1, r1) =>
        match r1 with
        | '.' :: r2 =>
          match quotedChunk r2 with
          | some (s2, r3) => some ('"' :: s1 ++ '"' :: '.' :: '"' :: (s2 ++ ['"']), r3)
          | none => some ('"' :: s1 ++ ['"'], r1)
        | _ => some ('"' :: s1 ++ ['"'], r1)
    else if isIdentStart c then
      let w1 := splitRun isWordChar (c :: cs)
      match w1.2 with
      | '.' :: d :: r2 =>
        if isIdentStart d then
          let w2 := splitRun isWordChar (d :: r2)
          some (w1.1 ++ '.' :: w2.1, w2.2)
        else some (w1.1, w1.2)
      | _ => some (w1.1, w1.2)
    else none

/-- One attempt of the fallback regex at the current position: keyword
(case-insensitive `FROM`/`JOIN`), `\s+`, then the target alternation.
Returns the raw target text and the total number of characters consumed. -/
def vTryAt (l : List Char) : Option (List Char × Nat) :=
  let kw :=
    match matchCI ['f', 'r', 'o', 'm'] l with
    | some r => some r
    | none => matchCI ['j', 'o', 'i', 'n'] l
  match kw with
  | none => none
  | some r0 =>
    match takeSpaces1 r0 with
    | none => none
    | some (ws, r1) =>
      match vTarget r1 with
      | none => none
      | some (raw, _) => some (raw, 4 + ws.length + raw.length)

/-- The fallback scanner: left-to-right scan with word-boundary tracking.
`skip` counts characters still inside the last match (`lastIndex`). -/
def vGo : Nat → Bool → List Char → List (List Char)
  | _, _, [] => []
  | skip + 1, _, c :: cs => vGo skip (isWordChar c) cs
  | 0, pw, c :: cs =>
    if pw then vGo 0 (isWordChar c) cs
    else
      match vTryAt (c :: cs) with
      | some (raw, consumed) => raw :: vGo (consumed - 1) (isWordChar c) cs
      | none => vGo 0 (isWordChar c) cs

/-- All raw FROM/JOIN targets of the fallback scan, in match order. -/
def fjTargets (sql : List Char) : List (List Char) :=
  vGo 0 false sql

/-- `full.replace(/"/g, '').split('.')` of a raw target. -/
def strippedParts (raw : List Char) : List (List Char) :=
  splitDot (raw.filter (fun c => c != '"'))

/-- The allow-listed tables ending in `.bareName` (the bare-name suffix
match of the fallback). -/
def suffixMatches (set : List String) (tbl : String) : List String :=
  set.filter (fun t => endsWithS t ("." ++ tbl))

/-- Processing of one fallback target: a two-part name is added lower-cased;
a bare single-part name is added only when its suffix match against the
allow-list is a singleton; anything else contributes nothing. -/
def addInferred (set : List String) (acc : List String) (raw : List Char) : List String :=
  match strippedParts raw with
  | [p0, p1] => setAdd acc (jsLower (String.mk p0 ++ "." ++ String.mk p1))
  | [p0] =>
    let tbl := jsLower (String.mk p0)
    let ms := suffixMatches set tbl
    if ms.length == 1 then setAdd acc (ms.headD "") else acc
  | _ => acc

/-- The `inferred` set of the fallback branch. -/
def inferredTokens (sql : List Char) (set : List String) : List String :=
  (fjTargets sql).foldl (addInferred set) []

/-! ## `validateSqlTables` -/

structure ValidationResult where
  ok : Bool
  unknown : List String
  noneFound : Bool
  foundTables : List String
deriving Repr, DecidableEq

/-- Shallow embedding of `validateSqlTables(sql, allowedTables)`. -/
def validateSqlTables (sql : String) (allowedTables : List String) : ValidationResult :=
  let set := dedupKeep (allowedTables.map jsLower)
  let found0 := dedupKeep (phase1Tokens sql.data)
  let unknown0 := found0.filter (fun f => !set.contains f)
  let noneFound0 := found0.length == 0
  if noneFound0 then
    let inferred := inferredTokens sql.data set
    if inferred.length != 0 then
      let found1 := setAddAll found0 inferred
      let unknown1 := found1.filter (fun f => !set.contains f)
      { ok := unknown1.length == 0 && !(found1.length == 0)
        unknown := unknown1
        noneFound := found1.length == 0
        foundTables := found1 }
    else
      { ok := unknown0.length == 0 && !noneFound0
        unknown := unknown0
        noneFound := noneFound0
        foundTables := found0 }
  else
    { ok := unknown0.length == 0 && !noneFound0
      unknown := unknown0
      noneFound := noneFound0
      foundTables := found0 }

/-- The lower-cased, quote-stripped names of the quoted FROM/JOIN targets
(the `"schema"."table"` and `"table"` forms) found by the fallback scan. -/
def quotedTargetNames (sql : String) : List String :=
  (fjTargets sql.data).filterMap fun raw =>
    if raw.contains '"' then some (jsLower (String.mk (raw.filter (fun c => c != '"')))) else none

/-! ## `qualifySqlTables` -/

/-- The bare-name → unique `schema.table` mapping built by `qualifySqlTables`:
the lower-cased allow-list entries are grouped by the second component of
their dot-split (`const [schema, tbl] = fq.split('.')`), and only singleton
groups survive.  Entries without a dot group under JS `undefined` and are
unreachable from a string lookup, so they contribute no candidate here. -/
def bareCandidates (allowedTables : List String) (tbl : String) : List (String × String) :=
  (allowedTables.map jsLower).filterMap fun fq =>
    match splitDot fq.data with
    | s :: t :: _ => if String.mk t = tbl then some (String.mk s, String.mk t) else none
    | _ => none

def uniqueFq (allowedTables : List String) (tbl : String) : Option (String × String) :=
  match bareCandidates allowedTables tbl with
  | [x] => some x
  | _ => none

/-- The single-quoted-chunk alternative of the qualifier's target, with its
trailing `\b`: the next character (the head of `r1`) must be a word
character. -/
def qTargetAlt2 (s1 r1 : List Char) : Option (List Char × List Char) :=
  match r1 with
  | d :: _ => if isWordChar d then some ('"' :: s1 ++ ['"'], r1) else none
  | [] => none

/-- The qualifier's target alternation with its trailing `\b`.  A target
ending in `"` satisfies the boundary only when the next character is a word
character; a bare identifier always does (greediness leaves a non-word
character or the end of input next).  When the quoted-pair alternative fails
its boundary the regex backtracks to the single-quoted alternative. -/
def qTarget : List Char → Option (List Char × List Char)
  | [] => none
  | c :: cs =>
    if c = '"' then
      match quotedChunk (c :: cs) with
      | none => none
      | some (s1, r1) =>
        if r1.headD ' ' = '.' then
          match quotedChunk r1.tail with
          | some (s2, r3) =>
            match r3 with
            | d :: _ =>
              if isWordChar d then some ('"' :: s1 ++ '"' :: '.' :: '"' :: (s2 ++ ['"']), r3)
              else qTargetAlt2 s1 r1
            | [] => qTargetAlt2 s1 r1
          | none => qTargetAlt2 s1 r1
        else qTargetAlt2 s1 r1
    else if isIdentStart c then
      let w1 := splitRun isWordChar (c :: cs)
      some (w1.1, w1.2)
    else none

structure QMatch where
  raw : List Char
  out : List Char
  consumed : Nat
deriving Repr, DecidableEq

/-- The part of a qualifier match after the keyword: `\s+`, the target, and
the callback's substitution text — a bare single-part target with a unique
mapping becomes `KW "schema"."table"` (the tail `\b` captures the empty
string); every other match is kept verbatim. -/
def qualifyTryAtKw (qmap : String → Option (String × String)) (kwText r0 : List Char) :
    Option QMatch :=
  match takeSpaces1 r0 with
  | none => none
  | some (ws, r1) =>
    match qTarget r1 with
    | none => none
    | some (raw, _) =>
      let out :=
        match strippedParts raw with
        | [p0] =>
          match qmap (jsLower (String.mk p0)) with
          | some (s, n) =>
            kwText ++ ' ' :: '"' :: s.data ++ '"' :: '.' :: '"' :: (n.data ++ ['"'])
          | none => kwText ++ ws ++ raw
        | _ => kwText ++ ws ++ raw
      some { raw := raw, out := out, consumed := 4 + ws.length + raw.length }

/-- One attempt of the qualifier's replace regex
`/\b(FROM|JOIN)\s+("[^"]+"\."[^"]+"|"[^"]+"|[a-zA-Z_][\w]*)(\b)/g` at the
current position (the keyword is matched case-sensitively). -/
def qualifyTryAt (qmap : String → Option (String × String)) (l : List Char) :
    Option QMatch :=
  match matchLit ['F', 'R', 'O', 'M'] l with
  | some r0 => qualifyTryAtKw qmap ['F', 'R', 'O', 'M'] r0
  | none =>
    match matchLit ['J', 'O', 'I', 'N'] l with
    | some r0 => qualifyTryAtKw qmap ['J', 'O', 'I', 'N'] r0
    | none => none

/-- The qualifier's global replace as a scanner: characters outside matches
are emitted verbatim, each match is emitted as the callback's text; `skip`
counts characters still inside the last match. -/
def qualifyGo (qmap : String → Option (String × String)) :
    Nat → Bool → List Char → List Char
  | _, _, [] => []
  | skip + 1, _, c :: cs => qualifyGo qmap skip (isWordChar c) cs
  | 0, pw, c :: cs =>
    if pw then c :: qualifyGo qmap 0 (isWordChar c) cs
    else
      match qualifyTryAt qmap (c :: cs) with
      | some m => m.out ++ qualifyGo qmap (m.consumed - 1) (isWordChar c) cs
      | none => c :: qualifyGo qmap 0 (isWordChar c) cs

/-- The raw targets matched by the qualifier's replace regex, in match order
(same scan as `qualifyGo`). -/
def qGoTargets (qmap : String → Option (String × String)) :
    Nat → Bool → List Char → List (List Char)
  | _, _, [] => []
  | skip + 1, _, c :: cs => qGoTargets qmap skip (isWordChar c) cs
  | 0, pw, c :: cs =>
    if pw then qGoTargets qmap 0 (isWordChar c) cs
    else
      match qualifyTryAt qmap (c :: cs) with
      | some m => m.raw :: qGoTargets qmap (m.consumed - 1) (isWordChar c) cs
      | none => qGoTargets qmap 0 (isWordChar c) cs

/-- The word-boundary state after scanning past a list of characters. -/
def pwAfter (pw : Bool) (taken : List Char) : Bool :=
  taken.foldl (fun _ c => isWordChar c) pw

/-- Shallow embedding of `qualifySqlTables(sql, allowedTables)`. -/
def qualifySqlTables (sql : String) (allowedTables : List String) : String :=
  String.mk (qualifyGo (uniqueFq allowedTables) 0 false sql.data)

/-- The FROM/JOIN targets the qualifier's regex matches on `sql` (used to
state that every table reference is already in qualified form). -/
def qualifierTargets (sql : String) (allowedTables : List String) : List (List Char) :=
  qGoTargets (uniqueFq allowedTables) 0 false sql.data

/-! ## The execution node `nodeExecuteSQL` -/

inductive JsVal where
  | num (n : Int)
  | str (s : String)
  | null
deriving Repr, DecidableEq

/-- A result row: column name to value, in column order. -/
abbrev Row := List (String × JsVal)

/-- The database capability: a query either yields rows or raises an error
carrying a message. -/
abbrev Db := String → Except String (List Row)

def jsValToString : JsVal → String
  | .num n => toString n
  | .str s => s
  | .null => "null"

def rowLookup (r : Row) (k : String) : Option JsVal :=
  (r.find? (fun p => p.1 == k)).map (·.2)

/-- `countRes.rows?.[0]?.count ?? 0`. -/
def extractCount (rows : List Row) : JsVal :=
  match rows with
  | [] => .num 0
  | r :: _ =>
    match rowLookup r "count" with
    | none => .num 0
    | some .null => .num 0
    | some v => v

/-- `first.split('.')` destructured as `[schemaName, tableName]` (a missing
part is JS `undefined`, which would render as "undefined"). -/
def splitFirstTwo (s : String) : String × String :=
  match splitDot s.data with
  | a :: b :: _ => (String.mk a, String.mk b)
  | [a] => (String.mk a, "undefined")
  | [] => ("undefined", "undefined")

def countQuerySql (schemaName tableName : String) : String :=
  "SELECT COUNT(*)::int AS count FROM \"" ++ schemaName ++ "\".\"" ++ tableName ++ "\""

/-- JS `Array.prototype.join(', ')`. -/
def joinComma : List String → String
  | [] => ""
  | [x] => x
  | x :: xs => x ++ ", " ++ joinComma xs

/-- `err?.message || 'Database error'`: an empty message is falsy. -/
def dbErrMessage (m : String) : String :=
  if m = "" then "Database error" else m

/-- The update returned by the execution node, together with the queries sent
to the database capability, in order. -/
structure ExecResult where
  rows : List Row
  answer : Option String
  error : Option String
  dbCalls : List String
deriving Repr, DecidableEq

/-- Shallow embedding of `nodeExecuteSQL`: re-validates, then executes; on an
empty result set issues the diagnostic `COUNT(*)` follow-up against the
first referenced table; database errors are caught.  The node's returned
update never sets the state's `error` field. -/
def nodeExecuteSQL (db : Db) (sql : String) (allowedTables : List String) : ExecResult :=
  let v := validateSqlTables sql allowedTables
  if v.ok then
    match db sql with
    | .error e =>
      { rows := [], answer := some ("DB error: " ++ dbErrMessage e), error := none
        dbCalls := [sql] }
    | .ok rows =>
      if rows.length == 0 then
        match v.foundTables with
        | [] => { rows := rows, answer := none, error := none, dbCalls := [sql] }
        | first :: _ =>
          if first = "" then
            { rows := rows, answer := none, error := none, dbCalls := [sql] }
          else
            let st := splitFirstTwo first
            let q := countQuerySql st.1 st.2
            match db q with
            | .error e =>
              { rows := [], answer := some ("DB error: " ++ dbErrMessage e), error := none
                dbCalls := [sql, q] }
            | .ok crows =>
              { rows := []
                answer := some ("No results. Diagnostics: \"" ++ st.1 ++ "\".\"" ++ st.2 ++
                  "\" has " ++ jsValToString (extractCount crows) ++ " rows.")
                error := none
                dbCalls := [sql, q] }
      else { rows := rows, answer := none, error := none, dbCalls := [sql] }
  else
    let msgError :=
      if v.noneFound then
        "Blocked execution. SQL must reference at least one fully-qualified allowed table."
      else "Blocked execution. Unknown tables: " ++ joinComma v.unknown
    { rows := [], answer := some msgError, error := none, dbCalls := [] }

/-! ## The inbound `ask` entry point -/

structure AgentResult where
  sql : String
  answer : String
  rows : List Row
deriving Repr, DecidableEq

structure AskResult where
  ok : Bool
  message : Option String
  question : Option String
  sql : Option String
  answer : Option String
  rows : Option (List Row)
deriving Repr, DecidableEq

/-- JS `String.prototype.trim` on the ASCII whitespace fragment. -/
def jsTrim (s : String) : String :=
  String.mk (((s.data.dropWhile isJsSpace).reverse.dropWhile isJsSpace).reverse)

/-- Shallow embedding of `RagService.ask`: the returned record plus the list
of questions forwarded to the pipeline (the pipeline, and through it the
database and completion capabilities, runs once per recorded call). -/
def ask (agent : String → AgentResult) (question : String) : AskResult × List String :=
  if question = "" || (jsTrim question).length == 0 then
    ({ ok := false, message := some "Missing query parameter q", question := none
       sql := none, answer := none, rows := none }, [])
  else
    let r := agent question
    ({ ok := true, message := none, question := some question, sql := some r.sql
       answer := some r.answer, rows := some r.rows }, [question])

/-! ## Numeric coercion and currency formatting of the answer node -/

def digitsVal (l : List Char) : Nat :=
  l.foldl (fun acc c => acc * 10 + (c.toNat - '0'.toNat)) 0

/-- The optional exponent suffix of a JS numeric literal, which must consume
the whole remaining input. -/
def parseExp : List Char → Option Int
  | [] => some 0
  | c :: cs =>
    if c = 'e' || c = 'E' then
      let es : Int := if cs.headD ' ' = '-' then -1 else 1
      let cs1 := if cs.headD ' ' = '-' || cs.headD ' ' = '+' then cs.tail else cs
      let ds := splitRun Char.isDigit cs1
      if ds.1.isEmpty then none
      else if ds.2.isEmpty then some (es * digitsVal ds.1) else none
    else none

/-- Modelled from the spec: JS `Number()` (the platform coercion used by
`toNumberMaybe`) on the decimal fragment — optional sign, digits with an
optional fraction part, optional exponent; the empty string is 0.
Hexadecimal/octal/binary literals and `Infinity` are outside the modeled
fragment (the source feeds it only locale-formatted numeric strings);
`none` stands for a non-finite result. -/
def jsNumber (l : List Char) : Option ℚ :=
  match l with
  | [] => some 0
  | c0 :: cs0 =>
    let sign : ℚ := if c0 = '-' then -1 else 1
    let l1 := if c0 = '-' || c0 = '+' then cs0 else c0 :: cs0
    let ip := splitRun Char.isDigit l1
    if ip.2.headD ' ' = '.' then
      let fp := splitRun Char.isDigit ip.2.tail
      if ip.1.isEmpty && fp.1.isEmpty then none
      else
        match parseExp fp.2 with
        | none => none
        | some e =>
          some (sign * ((digitsVal ip.1 : ℚ) + (digitsVal fp.1 : ℚ) / 10 ^ fp.1.length) * 10 ^ e)
    else
      if ip.1.isEmpty then none
      else
        match parseExp ip.2 with
        | none => none
        | some e => some (sign * (digitsVal ip.1 : ℚ) * 10 ^ e)

/-- Shallow embedding of `toNumberMaybe`: finite numbers pass through;
strings have whitespace stripped, all dots removed and commas turned into
dots, then go through the `Number` coercion; anything else is `null`. -/
def toNumberMaybe : JsVal → Option ℚ
  | .num n => some (n : ℚ)
  | .str v =>
    let s := ((v.data.filter (fun c => !isJsSpace c)).filter (fun c => c != '.')).map
      (fun c => if c = ',' then '.' else c)
    jsNumber s
  | .null => none

/-- JS `Math.round`: round half toward positive infinity. -/
def jsMathRound (q : ℚ) : Int := ⌊q + 1 / 2⌋

/-- Digit grouping with `.` every three digits, fed the digit list in
reverse (the es-CL grouping separator). -/
def group3Rev : List Char → List Char
  | d1 :: d2 :: d3 :: d4 :: rest => d1 :: d2 :: d3 :: '.' :: group3Rev (d4 :: rest)
  | l => l

/-- Modelled from the spec: the fixed-locale platform formatter
`new Intl.NumberFormat('es-CL', { style: 'currency', currency: 'CLP',
minimumFractionDigits: 0, maximumFractionDigits: 0 })` — `$` followed by
the dot-grouped integer digits, with a leading `-` on negative inputs. -/
def clpFmtFormat (n : Int) : String :=
  let digits := String.mk ((group3Rev (toString n.natAbs).data.reverse).reverse)
  if n < 0 then "-$" ++ digits else "$" ++ digits

/-- Shallow embedding of `formatCLP`: round to the nearest peso; a negative
rounded value is rendered as `-` followed by the formatting of its absolute
value.  (The non-number / non-finite guard of the source is unreachable in
this total model.) -/
def formatCLP (q : ℚ) : String :=
  let rounded := jsMathRound q
  if rounded < 0 then "-" ++ clpFmtFormat (Int.natAbs rounded : Int)
  else clpFmtFormat rounded

/-! # Theorems -/

/-! ## Generic helper lemmas -/

theorem splitRun_append (p : Char → Bool) (l : List Char) :
    (splitRun p l).1 ++ (splitRun p l).2 = l := by
  induction l with
  | nil => rfl
  | cons c cs ih =>
    simp only [splitRun]
    by_cases h : p c = true
    · simp [h, ih]
    · simp [h]

theorem splitRun_all (p : Char → Bool) (l : List Char) (h : ∀ c ∈ l, p c = true) :
    splitRun p l = (l, []) := by
  induction l with
  | nil => rfl
  | cons c cs ih =>
    have hc : p c = true := h c (List.mem_cons_self c cs)
    simp only [splitRun, hc, if_true, ih (fun x hx => h x (List.mem_cons_of_mem c hx))]

theorem splitRun_none (p : Char → Bool) (c : Char) (cs : List Char) (h : p c = false) :
    splitRun p (c :: cs) = ([], c :: cs) := by
  simp [splitRun, h]

theorem dedupKeep_def (xs : List String) : dedupKeep xs = setAddAll [] xs := rfl

theorem dedupKeep_nil : dedupKeep ([] : List String) = [] := rfl

/-! ## Character-class lemmas -/

theorem isJsSpace_false_of_identStart (c : Char) (h : isIdentStart c = true) :
    isJsSpace c = false := by
  cases hb : isJsSpace c
  · rfl
  · simp only [isJsSpace, Bool.or_eq_true, beq_iff_eq] at hb
    rcases hb with ((((h1 | h1) | h1) | h1) | h1) | h1 <;> subst h1 <;>
      simp [isIdentStart] at h

theorem ne_quote_of_identStart (c : Char) (h : isIdentStart c = true) : ¬ c = '"' := by
  intro heq
  rw [heq] at h
  exact absurd h (by decide)

theorem bne_quote_of_word (c : Char) (h : isWordChar c = true) : (c != '"') = true := by
  by_cases hc : c = '"'
  · rw [hc] at h
    exact absurd h (by decide)
  · simp [bne_iff_ne, hc]

theorem ne_dot_of_word (c : Char) (h : isWordChar c = true) : ¬ c = '.' := by
  intro heq
  rw [heq] at h
  exact absurd h (by decide)

theorem splitDot_no_dot (l : List Char) (h : ∀ c ∈ l, ¬ c = '.') : splitDot l = [l] := by
  induction l with
  | nil => rfl
  | cons c cs ih =>
    have hc : ¬ c = '.' := h c (List.mem_cons_self c cs)
    simp only [splitDot, ih (fun x hx => h x (List.mem_cons_of_mem c hx)), hc, if_false]

/-! ## Scanner structure lemmas -/

theorem qualifyGo_split (qmap : String → Option (String × String)) :
    ∀ (l : List Char) (k : Nat) (pw : Bool),
      qualifyGo qmap k pw l = qualifyGo qmap 0 (pwAfter pw (l.take k)) (l.drop k) := by
  intro l
  induction l with
  | nil => intro k pw; cases k <;> rfl
  | cons c cs ih =>
    intro k pw
    cases k with
    | zero => rfl
    | succ k =>
      show qualifyGo qmap k (isWordChar c) cs = _
      rw [ih k (isWordChar c)]
      rfl

theorem qGoTargets_split (qmap : String → Option (String × String)) :
    ∀ (l : List Char) (k : Nat) (pw : Bool),
      qGoTargets qmap k pw l = qGoTargets qmap 0 (pwAfter pw (l.take k)) (l.drop k) := by
  intro l
  induction l with
  | nil => intro k pw; cases k <;> rfl
  | cons c cs ih =>
    intro k pw
    cases k with
    | zero => rfl
    | succ k =>
      show qGoTargets qmap k (isWordChar c) cs = _
      rw [ih k (isWordChar c)]
      rfl

theorem matchLit_decomp : ∀ (ks l r : List Char), matchLit ks l = some r → l = ks ++ r := by
  intro ks
  induction ks with
  | nil => intro l r h; simp only [matchLit, Option.some.injEq] at h; simp [h]
  | cons k ks ih =>
    intro l r h
    cases l with
    | nil => simp [matchLit] at h
    | cons c cs =>
      simp only [matchLit] at h
      by_cases hc : c = k
      · rw [if_pos hc] at h
        rw [hc, List.cons_append, ih cs r h]
      · rw [if_neg hc] at h
        exact absurd h (by simp)

theorem takeSpaces1_decomp (l ws r : List Char) (h : takeSpaces1 l = some (ws, r)) :
    l = ws ++ r := by
  cases l with
  | nil => simp [takeSpaces1] at h
  | cons c cs =>
    simp only [takeSpaces1] at h
    by_cases hc : isJsSpace c = true
    · rw [if_pos hc] at h
      simp only [Option.some.injEq, Prod.mk.injEq] at h
      rw [← h.1, ← h.2, List.cons_append, splitRun_append]
    · rw [if_neg hc] at h
      exact absurd h (by simp)

theorem quotedChunk_decomp (l s r : List Char) (h : quotedChunk l = some (s, r)) :
    l = '"' :: s ++ '"' :: r := by
  cases l with
  | nil => simp [quotedChunk] at h
  | cons c cs =>
    simp only [quotedChunk] at h
    by_cases hc : c = '"'
    · rw [if_pos hc] at h
      subst hc
      rcases hsp : splitRun (fun d => d != '"') cs with ⟨run, rest⟩
      rw [hsp] at h
      cases run with
      | nil => simp at h
      | cons a as =>
        cases rest with
        | nil => simp at h
        | cons rr rs =>
          simp only at h
          by_cases hr : rr = '"'
          · rw [if_pos hr] at h
            simp only [Option.some.injEq, Prod.mk.injEq] at h
            have := splitRun_append (fun d => d != '"') cs
            rw [hsp] at this
            simp only at this
            rw [← h.1, ← h.2, ← hr, ← this]
            simp
          · rw [if_neg hr] at h
            exact absurd h (by simp)
    · rw [if_neg hc] at h
      exact absurd h (by simp)

theorem headD_eq_dot (l : List Char) (h : l.headD ' ' = '.') : l = '.' :: l.tail := by
  cases l with
  | nil => simp at h
  | cons d ds => simp only [List.headD_cons] at h; rw [h]; rfl

theorem qTargetAlt2_decomp (s1 r1 raw r : List Char)
    (hh : qTargetAlt2 s1 r1 = some (raw, r)) :
    raw = '"' :: s1 ++ ['"'] ∧ r = r1 := by
  cases r1 with
  | nil => simp [qTargetAlt2] at hh
  | cons d ds =>
    simp only [qTargetAlt2] at hh
    by_cases hw : isWordChar d = true
    · rw [if_pos hw] at hh
      simp only [Option.some.injEq, Prod.mk.injEq] at hh
      exact ⟨hh.1.symm, hh.2.symm⟩
    · rw [if_neg hw] at hh
      exact absurd hh (by simp)

theorem qTarget_decomp (l raw r : List Char) (h : qTarget l = some (raw, r)) :
    l = raw ++ r := by
  cases l with
  | nil => simp [qTarget] at h
  | cons c cs =>
    simp only [qTarget] at h
    by_cases hc : c = '"'
    · rw [if_pos hc] at h
      rcases hq1 : quotedChunk (c :: cs) with _ | ⟨s1, r1⟩
      · rw [hq1] at h; exact absurd h (by simp)
      · simp only [hq1] at h
        have hd1 := quotedChunk_decomp _ _ _ hq1
        have halt2 : qTargetAlt2 s1 r1 = some (raw, r) → c :: cs = raw ++ r := by
          intro hh
          rcases qTargetAlt2_decomp _ _ _ _ hh with ⟨h1, h2⟩
          rw [h1, h2, hd1]
          simp
        by_cases hhd : r1.headD ' ' = '.'
        · rw [if_pos hhd] at h
          rcases hq2 : quotedChunk r1.tail with _ | ⟨s2, r3⟩
          · rw [hq2] at h
            exact halt2 h
          · simp only [hq2] at h
            have hd2 := quotedChunk_decomp _ _ _ hq2
            cases hr3 : r3 with
            | nil =>
              rw [hr3] at h
              exact halt2 h
            | cons e es =>
              simp only [hr3] at h
              by_cases hw : isWordChar e = true
              · rw [if_pos hw] at h
                simp only [Option.some.injEq, Prod.mk.injEq] at h
                rw [← h.1, ← h.2, hd1, headD_eq_dot r1 hhd, hd2, hr3]
                simp
              · rw [if_neg hw] at h
                exact halt2 h
        · rw [if_neg hhd] at h
          exact halt2 h
    · rw [if_neg hc] at h
      by_cases hi : isIdentStart c = true
      · rw [if_pos hi] at h
        simp only [Option.some.injEq, Prod.mk.injEq] at h
        rw [← h.1, ← h.2, splitRun_append]
      · rw [if_neg hi] at h
        exact absurd h (by simp)

theorem qualifyTryAtKw_id_out (qmap : String → Option (String × String))
    (kwText r0 : List Char) (m : QMatch)
    (h : qualifyTryAtKw qmap kwText r0 = some m)
    (hkw : kwText.length = 4)
    (hne : (strippedParts m.raw).length ≠ 1) :
    m.out ++ (kwText ++ r0).drop m.consumed = kwText ++ r0 ∧ 1 ≤ m.consumed := by
  rcases hts : takeSpaces1 r0 with _ | ⟨ws, r1⟩
  · rw [qualifyTryAtKw, hts] at h; exact absurd h (by simp)
  · rcases hqt : qTarget r1 with _ | ⟨raw, rest⟩
    · simp only [qualifyTryAtKw, hts, hqt] at h
      exact absurd h (by simp)
    · simp only [qualifyTryAtKw, hts, hqt] at h
      have hr0 : r0 = ws ++ r1 := takeSpaces1_decomp _ _ _ hts
      have hr1 : r1 = raw ++ rest := qTarget_decomp _ _ _ hqt
      have key : kwText ++ r0 = (kwText ++ ws ++ raw) ++ rest := by
        rw [hr0, hr1]; simp [List.append_assoc]
      have hlen : (kwText ++ ws ++ raw).length = 4 + ws.length + raw.length := by
        simp only [List.length_append, hkw]
      obtain ⟨mraw, mout, mcons⟩ := m
      cases hsp : strippedParts raw with
      | nil =>
        simp only [hsp, Option.some.injEq, QMatch.mk.injEq] at h
        obtain ⟨rfl, rfl, rfl⟩ := h
        refine ⟨?_, by show 1 ≤ 4 + ws.length + raw.length; omega⟩
        rw [key, ← hlen, List.drop_left]
      | cons p0 ps =>
        cases ps with
        | nil =>
          simp only [hsp, Option.some.injEq, QMatch.mk.injEq] at h
          obtain ⟨rfl, rfl, rfl⟩ := h
          rw [hsp] at hne
          simp at hne
        | cons p1 ps2 =>
          simp only [hsp, Option.some.injEq, QMatch.mk.injEq] at h
          obtain ⟨rfl, rfl, rfl⟩ := h
          refine ⟨?_, by show 1 ≤ 4 + ws.length + raw.length; omega⟩
          rw [key, ← hlen, List.drop_left]

theorem qualifyTryAt_id_out (qmap : String → Option (String × String)) (l : List Char)
    (m : QMatch) (h : qualifyTryAt qmap l = some m)
    (hne : (strippedParts m.raw).length ≠ 1) :
    m.out ++ l.drop m.consumed = l ∧ 1 ≤ m.consumed := by
  rcases hF : matchLit ['F', 'R', 'O', 'M'] l with _ | r0
  · rcases hJ : matchLit ['J', 'O', 'I', 'N'] l with _ | r0
    · simp only [qualifyTryAt, hF, hJ] at h
      exact absurd h (by simp)
    · simp only [qualifyTryAt, hF, hJ] at h
      rw [matchLit_decomp _ _ _ hJ]
      exact qualifyTryAtKw_id_out qmap _ r0 m h (by decide) hne
  · simp only [qualifyTryAt, hF] at h
    rw [matchLit_decomp _ _ _ hF]
    exact qualifyTryAtKw_id_out qmap _ r0 m h (by decide) hne

theorem qualifyGo_id (qmap : String → Option (String × String)) :
    ∀ (n : Nat) (l : List Char), l.length ≤ n → ∀ (pw : Bool),
      (∀ raw ∈ qGoTargets qmap 0 pw l, (strippedParts raw).length ≠ 1) →
      qualifyGo qmap 0 pw l = l := by
  intro n
  induction n with
  | zero =>
    intro l hl pw _
    have hnil : l = [] := List.length_eq_zero.mp (Nat.le_zero.mp hl)
    subst hnil; rfl
  | succ n ih =>
    intro l hl pw htg
    cases l with
    | nil => rfl
    | cons c cs =>
      have hcs : cs.length ≤ n := by
        simp only [List.length_cons] at hl
        omega
      cases hpw : pw with
      | true =>
        rw [hpw] at htg
        show c :: qualifyGo qmap 0 (isWordChar c) cs = c :: cs
        have htg2 : ∀ raw ∈ qGoTargets qmap 0 (isWordChar c) cs,
            (strippedParts raw).length ≠ 1 := by
          intro raw hr
          exact htg raw (by simpa [qGoTargets] using hr)
        rw [ih cs hcs (isWordChar c) htg2]
      | false =>
        rw [hpw] at htg
        cases htry : qualifyTryAt qmap (c :: cs) with
        | none =>
          have htg2 : ∀ raw ∈ qGoTargets qmap 0 (isWordChar c) cs,
              (strippedParts raw).length ≠ 1 := by
            intro raw hr
            exact htg raw (by simpa [qGoTargets, htry] using hr)
          show qualifyGo qmap 0 false (c :: cs) = c :: cs
          simp only [qualifyGo, htry, Bool.false_eq_true, if_false]
          rw [ih cs hcs (isWordChar c) htg2]
        | some m =>
          have hmem : m.raw ∈ qGoTargets qmap 0 false (c :: cs) := by
            simp [qGoTargets, htry]
          have hm : (strippedParts m.raw).length ≠ 1 := htg m.raw hmem
          obtain ⟨hout, hcons⟩ := qualifyTryAt_id_out qmap (c :: cs) m htry hm
          have htg2 : ∀ raw ∈ qGoTargets qmap 0
              (pwAfter (isWordChar c) (cs.take (m.consumed - 1)))
              (cs.drop (m.consumed - 1)), (strippedParts raw).length ≠ 1 := by
            intro raw hr
            refine htg raw ?_
            have : qGoTargets qmap 0 false (c :: cs) =
                m.raw :: qGoTargets qmap (m.consumed - 1) (isWordChar c) cs := by
              simp [qGoTargets, htry]
            rw [this, qGoTargets_split qmap cs (m.consumed - 1) (isWordChar c)]
            exact List.mem_cons_of_mem _ hr
          have hdroplen : (cs.drop (m.consumed - 1)).length ≤ n := by
            have := List.length_drop (m.consumed - 1) cs
            omega
          show qualifyGo qmap 0 false (c :: cs) = c :: cs
          simp only [qualifyGo, htry, Bool.false_eq_true, if_false]
          rw [qualifyGo_split qmap cs (m.consumed - 1) (isWordChar c)]
          rw [ih (cs.drop (m.consumed - 1)) hdroplen _ htg2]
          have hdrop : cs.drop (m.consumed - 1) = (c :: cs).drop m.consumed := by
            cases hk : m.consumed with
            | zero => omega
            | succ k => simp [hk]
          rw [hdrop, hout]

/-! ## Validator characterization helpers -/

theorem validate_no_fallback (sql : String) (allowedTables : List String)
    (h : dedupKeep (phase1Tokens sql.data) ≠ []) :
    validateSqlTables sql allowedTables =
      (let set := dedupKeep (allowedTables.map jsLower)
       let found := dedupKeep (phase1Tokens sql.data)
       let unknown := found.filter (fun f => !set.contains f)
       { ok := unknown.length == 0 && !(found.length == 0)
         unknown := unknown
         noneFound := found.length == 0
         foundTables := found }) := by
  have h0 : ((dedupKeep (phase1Tokens sql.data)).length == 0) = false := by
    simpa [List.length_eq_zero] using h
  simp only [validateSqlTables, h0, Bool.false_eq_true, if_false]

theorem validate_fallback (sql : String) (allowedTables : List String)
    (h : dedupKeep (phase1Tokens sql.data) = []) :
    validateSqlTables sql allowedTables =
      (let set := dedupKeep (allowedTables.map jsLower)
       let inferred := inferredTokens sql.data set
       let found := dedupKeep inferred
       let unknown := found.filter (fun f => !set.contains f)
       { ok := unknown.length == 0 && !(found.length == 0)
         unknown := unknown
         noneFound := found.length == 0
         foundTables := found }) := by
  by_cases h1 : inferredTokens sql.data (dedupKeep (allowedTables.map jsLower)) = []
  · simp [validateSqlTables, h, h1, dedupKeep_nil]
  · have h2 : ((inferredTokens sql.data (setAddAll [] (allowedTables.map jsLower))).length != 0)
        = true := by
      rw [← dedupKeep_def]
      simpa [List.length_eq_zero] using h1
    simp only [validateSqlTables, h, dedupKeep_def, List.length_nil, Nat.zero_eq,
      beq_self_eq_true, if_true, h2]

theorem foldl_addInferred_unresolvable (set : List String) :
    ∀ (targets : List (List Char)) (acc : List String),
      (∀ raw ∈ targets, (strippedParts raw).length = 1 ∧
        (suffixMatches set (jsLower (String.mk ((strippedParts raw).headD [])))).length ≠ 1) →
      targets.foldl (addInferred set) acc = acc := by
  intro targets
  induction targets with
  | nil => intro acc _; rfl
  | cons raw ts ih =>
    intro acc h
    have hr := h raw (List.mem_cons_self raw ts)
    obtain ⟨p0, hp⟩ := List.length_eq_one.mp hr.1
    have hstep : addInferred set acc raw = acc := by
      have hms : ((suffixMatches set (jsLower (String.mk p0))).length == 1) = false := by
        have h2 := hr.2
        rw [hp] at h2
        simp only [List.headD_cons] at h2
        simpa using h2
      simp only [addInferred, hp, hms, Bool.false_eq_true, if_false]
    rw [List.foldl_cons, hstep]
    exact ih acc (fun r hrm => h r (List.mem_cons_of_mem raw hrm))

/-! ## C1 -/

/-- C1: for every SQL string and allow-list, `validateSqlTables` returns
`ok = (unknownTables empty) AND NOT noneFound`, where `foundTables` is the
set of lower-cased unquoted `identifier.identifier` tokens found anywhere in
the text, extended — only when that set is empty — by the FROM/JOIN fallback
targets (two-part names added directly, bare single-part names only via a
unique allow-list suffix match, as `inferredTokens` defines), `unknownTables`
is `foundTables` minus the lower-cased allow-list, and `noneFound` holds
exactly when `foundTables` is empty. -/
theorem c1_validate_output_formula (sql : String) (allowedTables : List String) :
    validateSqlTables sql allowedTables =
      (let set := dedupKeep (allowedTables.map jsLower)
       let base := dedupKeep (phase1Tokens sql.data)
       let found := if base = [] then dedupKeep (inferredTokens sql.data set) else base
       let unknown := found.filter (fun f => !set.contains f)
       { ok := unknown.length == 0 && !(found.length == 0)
         unknown := unknown
         noneFound := found.length == 0
         foundTables := found }) := by
  by_cases h : dedupKeep (phase1Tokens sql.data) = []
  · rw [validate_fallback sql allowedTables h]
    simp only [h, if_true]
  · rw [validate_no_fallback sql allowedTables h]
    simp only [h, if_false]

/-! ## C4 -/

/-- C4 counterexample: in `SELECT a.b FROM "a"."b"` the full-text scan finds
the unquoted token `a.b`, yet the quoted FROM target `"a"."b"` — whose
stripped name is that same `a.b` — appears in `foundTables` and (under an
empty allow-list) in `unknownTables`, contradicting the claim that every
quoted FROM/JOIN target is absent from both whenever an unquoted token
exists. -/
theorem c4_counterexample :
    phase1Tokens ("SELECT a.b FROM \"a\".\"b\"").data ≠ [] ∧
    "a.b" ∈ quotedTargetNames "SELECT a.b FROM \"a\".\"b\"" ∧
    "a.b" ∈ (validateSqlTables "SELECT a.b FROM \"a\".\"b\"" []).foundTables ∧
    "a.b" ∈ (validateSqlTables "SELECT a.b FROM \"a\".\"b\"" []).unknown := by
  refine ⟨by decide, by decide, by decide, by decide⟩

/-- C4 (amended): when the full-text scan finds at least one unquoted
`schema.table` token, `foundTables` is exactly the deduplicated token list
of that scan, so a quoted FROM/JOIN target is absent from `foundTables` and
from `unknownTables` unless its stripped lower-cased name also occurs as an
unquoted token. -/
theorem c4_quoted_targets_need_unquoted_token (sql : String) (allowedTables : List String)
    (n : String)
    (hbase : dedupKeep (phase1Tokens sql.data) ≠ [])
    (_hq : n ∈ quotedTargetNames sql)
    (hn : n ∉ dedupKeep (phase1Tokens sql.data)) :
    (validateSqlTables sql allowedTables).foundTables = dedupKeep (phase1Tokens sql.data) ∧
    n ∉ (validateSqlTables sql allowedTables).foundTables ∧
    n ∉ (validateSqlTables sql allowedTables).unknown := by
  rw [validate_no_fallback sql allowedTables hbase]
  refine ⟨rfl, hn, ?_⟩
  intro hmem
  exact hn (List.mem_of_mem_filter hmem)

/-- C4 witness. -/
theorem c4_witness :
    (validateSqlTables "SELECT x.y FROM \"a\".\"b\"" []).foundTables =
      dedupKeep (phase1Tokens ("SELECT x.y FROM \"a\".\"b\"").data) ∧
    "a.b" ∉ (validateSqlTables "SELECT x.y FROM \"a\".\"b\"" []).foundTables ∧
    "a.b" ∉ (validateSqlTables "SELECT x.y FROM \"a\".\"b\"" []).unknown :=
  c4_quoted_targets_need_unquoted_token "SELECT x.y FROM \"a\".\"b\"" [] "a.b"
    (by decide) (by decide) (by decide)

/-! ## C10 -/

/-- C10: in the FROM/JOIN fallback, a bare single-part name whose suffix
match against the allow-list yields zero or several candidates contributes
nothing; a SQL string with no full-text tokens whose fallback targets are
all such unresolvable bare names validates to
`noneFound = true`, `unknownTables = []`, `foundTables = []`, `ok = false`. -/
theorem c10_unresolvable_bare_names_give_none_found (sql : String)
    (allowedTables : List String)
    (h1 : phase1Tokens sql.data = [])
    (h2 : ∀ raw ∈ fjTargets sql.data, (strippedParts raw).length = 1 ∧
      (suffixMatches (dedupKeep (allowedTables.map jsLower))
        (jsLower (String.mk ((strippedParts raw).headD [])))).length ≠ 1) :
    validateSqlTables sql allowedTables =
      { ok := false, unknown := [], noneFound := true, foundTables := [] } := by
  have hbase : dedupKeep (phase1Tokens sql.data) = [] := by
    rw [h1]; rfl
  have hinf : inferredTokens sql.data (dedupKeep (allowedTables.map jsLower)) = [] :=
    foldl_addInferred_unresolvable _ _ _ h2
  rw [validate_fallback sql allowedTables hbase]
  simp [hinf, dedupKeep_nil]

/-- C10 witness: `SELECT * FROM foo` with an allow-list in which `foo`
appears under two schemas. -/
theorem c10_witness :
    phase1Tokens ("SELECT * FROM foo").data = [] ∧
    validateSqlTables "SELECT * FROM foo" ["a.bar", "x.foo", "y.foo"] =
      { ok := false, unknown := [], noneFound := true, foundTables := [] } :=
  ⟨by decide,
    c10_unresolvable_bare_names_give_none_found "SELECT * FROM foo" ["a.bar", "x.foo", "y.foo"]
      (by decide) (by decide)⟩

/-! ## Qualifier evaluation on the canonical `SELECT * FROM t` family -/

theorem mk_eq_of_data (a : List Char) (b : String) (h : a = b.data) : String.mk a = b := by
  rw [h]

theorem uniqueFq_of_singleton (allowedTables : List String) (tbl : String) (s n : String)
    (h : bareCandidates allowedTables tbl = [(s, n)]) :
    uniqueFq allowedTables tbl = some (s, n) := by
  rw [uniqueFq, h]

theorem uniqueFq_none_of_two (allowedTables : List String) (tbl : String)
    (h : 2 ≤ (bareCandidates allowedTables tbl).length) :
    uniqueFq allowedTables tbl = none := by
  rcases hc : bareCandidates allowedTables tbl with _ | ⟨a, rest⟩
  · rw [hc] at h; simp at h
  · cases rest with
    | nil => rw [hc] at h; simp at h
    | cons b rest2 => simp only [uniqueFq, hc]

theorem pwAfter_append (pw : Bool) (a b : List Char) :
    pwAfter pw (a ++ b) = pwAfter (pwAfter pw a) b := by
  simp [pwAfter, List.foldl_append]

theorem pwAfter_all_word (l : List Char) (h : ∀ c ∈ l, isWordChar c = true)
    (hne : l ≠ []) (pw : Bool) : pwAfter pw l = true := by
  induction l generalizing pw with
  | nil => exact absurd rfl hne
  | cons c cs ih =>
    show pwAfter (isWordChar c) cs = true
    cases cs with
    | nil => exact h c (List.mem_cons_self c [])
    | cons d ds =>
      exact ih (fun x hx => h x (List.mem_cons_of_mem c hx)) (by simp) (isWordChar c)

theorem splitRun_append_stop (p : Char → Bool) (a b : List Char)
    (ha : ∀ c ∈ a, p c = true) (hb : ∀ d, b.head? = some d → p d = false) :
    splitRun p (a ++ b) = (a, b) := by
  induction a with
  | nil =>
    simp only [List.nil_append]
    cases b with
    | nil => rfl
    | cons d ds => exact splitRun_none p d ds (hb d rfl)
  | cons c cs ih =>
    have hc : p c = true := ha c (List.mem_cons_self c cs)
    have h2 := ih (fun x hx => ha x (List.mem_cons_of_mem c hx))
    simp only [List.cons_append, splitRun, hc, if_true, List.append_eq, h2]

theorem takeSpaces1_all (ws b : List Char) (hws1 : ws ≠ [])
    (hws2 : ∀ c ∈ ws, isJsSpace c = true)
    (hb : ∀ d, b.head? = some d → isJsSpace d = false) :
    takeSpaces1 (ws ++ b) = some (ws, b) := by
  cases ws with
  | nil => exact absurd rfl hws1
  | cons w0 ws2 =>
    have hw0 : isJsSpace w0 = true := hws2 w0 (List.mem_cons_self w0 ws2)
    simp only [List.cons_append, takeSpaces1, hw0, if_true]
    rw [splitRun_append_stop isJsSpace ws2 b
      (fun x hx => hws2 x (List.mem_cons_of_mem w0 hx)) hb]

theorem qTarget_bare (c₀ : Char) (cs₀ post : List Char)
    (hq : ¬ c₀ = '"') (hid : isIdentStart c₀ = true)
    (hw : ∀ c ∈ (c₀ :: cs₀), isWordChar c = true)
    (hpost : ∀ d, post.head? = some d → isWordChar d = false) :
    qTarget ((c₀ :: cs₀) ++ post) = some (c₀ :: cs₀, post) := by
  have hsr : splitRun isWordChar (c₀ :: (cs₀ ++ post)) = (c₀ :: cs₀, post) := by
    have h := splitRun_append_stop isWordChar (c₀ :: cs₀) post hw hpost
    simpa [List.cons_append] using h
  show qTarget (c₀ :: (cs₀ ++ post)) = _
  rw [qTarget, if_neg hq, if_pos hid]
  simp [hsr]

theorem qualifyTryAtKw_bare (qmap : String → Option (String × String))
    (kwText ws : List Char) (c₀ : Char) (cs₀ post : List Char)
    (hws1 : ws ≠ []) (hws2 : ∀ c ∈ ws, isJsSpace c = true)
    (hq : ¬ c₀ = '"') (hid : isIdentStart c₀ = true)
    (hw : ∀ c ∈ (c₀ :: cs₀), isWordChar c = true)
    (hpost : ∀ d, post.head? = some d → isWordChar d = false) :
    qualifyTryAtKw qmap kwText (ws ++ (c₀ :: cs₀) ++ post) =
      some { raw := c₀ :: cs₀
             out :=
               match qmap (jsLower (String.mk (c₀ :: cs₀))) with
               | some (s, n) =>
                 kwText ++ ' ' :: '"' :: s.data ++ '"' :: '.' :: '"' :: (n.data ++ ['"'])
               | none => kwText ++ ws ++ (c₀ :: cs₀)
             consumed := 4 + ws.length + (c₀ :: cs₀).length } := by
  have hts : takeSpaces1 (ws ++ ((c₀ :: cs₀) ++ post)) = some (ws, (c₀ :: cs₀) ++ post) :=
    takeSpaces1_all ws _ hws1 hws2 (by
      intro d hd
      simp only [List.cons_append, List.head?_cons, Option.some.injEq] at hd
      rw [← hd]
      exact isJsSpace_false_of_identStart c₀ hid)
  have hqt : qTarget ((c₀ :: cs₀) ++ post) = some (c₀ :: cs₀, post) :=
    qTarget_bare c₀ cs₀ post hq hid hw hpost
  have hstr : strippedParts (c₀ :: cs₀) = [c₀ :: cs₀] := by
    rw [strippedParts]
    rw [List.filter_eq_self.mpr (fun a ha => bne_quote_of_word a (hw a ha))]
    exact splitDot_no_dot _ (fun c hc => ne_dot_of_word c (hw c hc))
  rw [List.append_assoc ws]
  simp only [qualifyTryAtKw, hts, hqt, hstr]

theorem qualifyTryAt_from (qmap : String → Option (String × String)) (rest : List Char) :
    qualifyTryAt qmap ('F' :: 'R' :: 'O' :: 'M' :: rest) =
      qualifyTryAtKw qmap ['F', 'R', 'O', 'M'] rest := by
  have hm : matchLit ['F', 'R', 'O', 'M'] ('F' :: 'R' :: 'O' :: 'M' :: rest) = some rest := by
    simp [matchLit]
  simp [qualifyTryAt, hm]

theorem qualifyTryAt_join (qmap : String → Option (String × String)) (rest : List Char) :
    qualifyTryAt qmap ('J' :: 'O' :: 'I' :: 'N' :: rest) =
      qualifyTryAtKw qmap ['J', 'O', 'I', 'N'] rest := by
  have hF : matchLit ['F', 'R', 'O', 'M'] ('J' :: 'O' :: 'I' :: 'N' :: rest) = none := by
    simp [matchLit]
  have hJ : matchLit ['J', 'O', 'I', 'N'] ('J' :: 'O' :: 'I' :: 'N' :: rest) = some rest := by
    simp [matchLit]
  simp [qualifyTryAt, hF, hJ]

theorem qualifyTryAt_kw (qmap : String → Option (String × String)) (kw rest : List Char)
    (hkw : kw = ['F', 'R', 'O', 'M'] ∨ kw = ['J', 'O', 'I', 'N']) :
    qualifyTryAt qmap (kw ++ rest) = qualifyTryAtKw qmap kw rest := by
  rcases hkw with rfl | rfl
  · exact qualifyTryAt_from qmap rest
  · exact qualifyTryAt_join qmap rest

theorem qualifyGo_append_no_match (qmap : String → Option (String × String)) :
    ∀ (pre rest : List Char) (pw : Bool),
      (∀ i, i < pre.length → qualifyTryAt qmap (pre.drop i ++ rest) = none) →
      qualifyGo qmap 0 pw (pre ++ rest) =
        pre ++ qualifyGo qmap 0 (pwAfter pw pre) rest := by
  intro pre
  induction pre with
  | nil => intro rest pw _; rfl
  | cons c cs ih =>
    intro rest pw h
    have hshift : ∀ i, i < cs.length → qualifyTryAt qmap (cs.drop i ++ rest) = none := by
      intro i hi
      have := h (i + 1) (by simp only [List.length_cons]; omega)
      simpa using this
    have hrec := ih rest (isWordChar c) hshift
    cases pw with
    | false =>
      have h0 : qualifyTryAt qmap (c :: (cs ++ rest)) = none := by
        have := h 0 (by simp)
        simpa using this
      show qualifyGo qmap 0 false (c :: (cs ++ rest)) = _
      simp only [qualifyGo, h0, Bool.false_eq_true, if_false]
      rw [hrec]
      rfl
    | true =>
      show qualifyGo qmap 0 true (c :: (cs ++ rest)) = _
      simp only [qualifyGo, if_true]
      rw [hrec]
      rfl

theorem qualifyGo_kw_step (qmap : String → Option (String × String))
    (kw ws t post : List Char) (m : QMatch)
    (hkw4 : kw.length = 4) (hkne : kw ≠ [])
    (htry : qualifyTryAt qmap (kw ++ ws ++ t ++ post) = some m)
    (hcons : m.consumed = 4 + ws.length + t.length)
    (htw : ∀ c ∈ t, isWordChar c = true) (htne : t ≠ [])
    (hpostA : qualifyGo qmap 0 true post = post) :
    qualifyGo qmap 0 false (kw ++ ws ++ t ++ post) = m.out ++ post := by
  obtain ⟨k0, ktail, hk⟩ := List.exists_cons_of_ne_nil hkne
  subst hk
  have htry2 : qualifyTryAt qmap (k0 :: (ktail ++ ws ++ t ++ post)) = some m := by
    simpa [List.cons_append] using htry
  show qualifyGo qmap 0 false (k0 :: (ktail ++ ws ++ t ++ post)) = _
  simp only [qualifyGo, htry2, Bool.false_eq_true, if_false]
  rw [qualifyGo_split]
  have hgrp : ktail ++ ws ++ t ++ post = (ktail ++ ws ++ t) ++ post := by
    simp [List.append_assoc]
  have hlen : (ktail ++ ws ++ t).length = m.consumed - 1 := by
    have hkt : ktail.length = 3 := by
      simp only [List.length_cons] at hkw4
      omega
    simp only [List.length_append, hkt, hcons]
    omega
  rw [hgrp, ← hlen, List.take_left, List.drop_left]
  have hpw : pwAfter (isWordChar k0) (ktail ++ ws ++ t) = true := by
    rw [pwAfter_append, pwAfter_append]
    exact pwAfter_all_word t htw htne _
  rw [hpw, hpostA]

/-! ## C3 -/

/-- C3 counterexample: with allow-list entry `public.Producto`, the bare name
`Producto` is rewritten to the lower-cased `"public"."producto"`, not to the
quoted form `"public"."Producto"` of the allow-listed table as the claim
states. -/
theorem c3_counterexample :
    qualifySqlTables "SELECT * FROM Producto" ["public.Producto"] =
      "SELECT * FROM \"public\".\"producto\"" ∧
    qualifySqlTables "SELECT * FROM Producto" ["public.Producto"] ≠
      "SELECT * FROM \"public\".\"Producto\"" := by
  exact ⟨by decide, by decide⟩

/-- C3 (amended): for every SQL string containing only an unqualified table
name `t` after `FROM` or `JOIN` — decomposed as `pre ++ kw ++ ws ++ t ++ post`
where `kw` is `FROM` or `JOIN`, `ws` is whitespace, `t` is a bare identifier
not continued by `post`, no qualifier match starts inside `pre`, the word
boundary before `kw` holds, and the scan leaves `post` unchanged — if `t`
maps case-insensitively to exactly one allow-listed `schema.table`, the
qualifier rewrites that occurrence to the quoted, lower-cased
`"schema"."table"` form of that table (collapsing the whitespace to one
space); if `t` maps to two or more, the SQL string is returned unchanged. -/
theorem c3_unique_bare_name_qualified (t : String) (allowedTables : List String)
    (kw pre ws post : List Char)
    (hkw : kw = ['F', 'R', 'O', 'M'] ∨ kw = ['J', 'O', 'I', 'N'])
    (h1 : t.data ≠ [])
    (h2 : ∀ c ∈ t.data, isWordChar c = true)
    (h3 : isIdentStart (t.data.headD ' ') = true)
    (hws1 : ws ≠ []) (hws2 : ∀ c ∈ ws, isJsSpace c = true)
    (hpost : ∀ d, post.head? = some d → isWordChar d = false)
    (hpre : ∀ i, i < pre.length → qualifyTryAt (uniqueFq allowedTables)
        (pre.drop i ++ (kw ++ ws ++ t.data ++ post)) = none)
    (hpreb : pwAfter false pre = false)
    (hpostA : qualifyGo (uniqueFq allowedTables) 0 true post = post) :
    (∀ s n, bareCandidates allowedTables (jsLower t) = [(s, n)] →
      qualifySqlTables (String.mk (pre ++ kw ++ ws ++ t.data ++ post)) allowedTables =
        String.mk (pre ++ kw ++
          (' ' :: '"' :: s.data ++ '"' :: '.' :: '"' :: (n.data ++ ['"'])) ++ post)) ∧
    (2 ≤ (bareCandidates allowedTables (jsLower t)).length →
      qualifySqlTables (String.mk (pre ++ kw ++ ws ++ t.data ++ post)) allowedTables =
        String.mk (pre ++ kw ++ ws ++ t.data ++ post)) := by
  obtain ⟨c₀, cs₀, ht⟩ := List.exists_cons_of_ne_nil h1
  have h3' : isIdentStart c₀ = true := by rw [ht] at h3; simpa using h3
  have h2' : ∀ c ∈ (c₀ :: cs₀), isWordChar c = true := by rw [ht] at h2; exact h2
  have hq : ¬ c₀ = '"' := ne_quote_of_identStart _ h3'
  have hmk : String.mk (c₀ :: cs₀) = t := by rw [← ht]
  have hbase := qualifyTryAtKw_bare (uniqueFq allowedTables) kw ws c₀ cs₀ post
    hws1 hws2 hq h3' h2' hpost
  rw [hmk] at hbase
  have htry := (qualifyTryAt_kw (uniqueFq allowedTables) kw
    (ws ++ (c₀ :: cs₀) ++ post) hkw).trans hbase
  have htry2 := (congrArg (qualifyTryAt (uniqueFq allowedTables))
      (show kw ++ ws ++ (c₀ :: cs₀) ++ post = kw ++ (ws ++ (c₀ :: cs₀) ++ post) by
        simp [List.append_assoc])).trans htry
  have hgo := qualifyGo_kw_step (uniqueFq allowedTables) kw ws (c₀ :: cs₀) post _
    (by rcases hkw with rfl | rfl <;> decide)
    (by rcases hkw with rfl | rfl <;> simp)
    htry2 rfl h2' (by simp) hpostA
  have hpre2 : ∀ i, i < pre.length → qualifyTryAt (uniqueFq allowedTables)
      (pre.drop i ++ (kw ++ ws ++ (c₀ :: cs₀) ++ post)) = none := by
    intro i hi
    have := hpre i hi
    rwa [ht] at this
  have hfull := qualifyGo_append_no_match (uniqueFq allowedTables) pre
    (kw ++ ws ++ (c₀ :: cs₀) ++ post) false hpre2
  rw [hpreb] at hfull
  have hdX : (String.mk (pre ++ kw ++ ws ++ t.data ++ post)).data =
      pre ++ (kw ++ ws ++ (c₀ :: cs₀) ++ post) := by
    rw [ht]
    simp [List.append_assoc]
  constructor
  · intro s n hcand
    have huf := uniqueFq_of_singleton _ _ s n hcand
    rw [qualifySqlTables, hdX, hfull, hgo]
    apply congrArg
    simp only [huf]
    simp [List.append_assoc]
  · intro hge2
    have huf := uniqueFq_none_of_two _ _ hge2
    rw [qualifySqlTables, hdX, hfull, hgo]
    apply congrArg
    simp only [huf]
    rw [ht]
    simp [List.append_assoc]

/-- C3 witness: inside `SELECT * FROM "public"."venta" JOIN … ON x`, the
unique bare name `producto` after `JOIN` is rewritten (lower-cased), while
the ambiguous `stock` is left unchanged; the last two conjuncts render the
decompositions as plain strings. -/
theorem c3_witness :
    qualifySqlTables (String.mk ("SELECT * FROM \"public\".\"venta\" ".data ++
        ['J', 'O', 'I', 'N'] ++ [' '] ++ "producto".data ++ " ON x".data))
        ["public.venta", "public.Producto"] =
      String.mk ("SELECT * FROM \"public\".\"venta\" ".data ++ ['J', 'O', 'I', 'N'] ++
        (' ' :: '"' :: "public".data ++ '"' :: '.' :: '"' :: ("producto".data ++ ['"'])) ++
        " ON x".data) ∧
    qualifySqlTables (String.mk ("SELECT * FROM \"public\".\"venta\" ".data ++
        ['J', 'O', 'I', 'N'] ++ [' '] ++ "stock".data ++ " ON x".data))
        ["public.venta", "a.stock", "b.stock"] =
      String.mk ("SELECT * FROM \"public\".\"venta\" ".data ++ ['J', 'O', 'I', 'N'] ++
        [' '] ++ "stock".data ++ " ON x".data) ∧
    String.mk ("SELECT * FROM \"public\".\"venta\" ".data ++ ['J', 'O', 'I', 'N'] ++
        [' '] ++ "producto".data ++ " ON x".data) =
      "SELECT * FROM \"public\".\"venta\" JOIN producto ON x" ∧
    String.mk ("SELECT * FROM \"public\".\"venta\" ".data ++ ['J', 'O', 'I', 'N'] ++
        (' ' :: '"' :: "public".data ++ '"' :: '.' :: '"' :: ("producto".data ++ ['"'])) ++
        " ON x".data) =
      "SELECT * FROM \"public\".\"venta\" JOIN \"public\".\"producto\" ON x" :=
  ⟨(c3_unique_bare_name_qualified "producto" ["public.venta", "public.Producto"]
      ['J', 'O', 'I', 'N'] "SELECT * FROM \"public\".\"venta\" ".data [' '] " ON x".data
      (by decide) (by decide) (by decide) (by decide) (by decide) (by decide) (by decide)
      (by decide) (by decide) (by decide)).1 "public" "producto" (by decide),
   (c3_unique_bare_name_qualified "stock" ["public.venta", "a.stock", "b.stock"]
      ['J', 'O', 'I', 'N'] "SELECT * FROM \"public\".\"venta\" ".data [' '] " ON x".data
      (by decide) (by decide) (by decide) (by decide) (by decide) (by decide) (by decide)
      (by decide) (by decide) (by decide)).2 (by decide),
   by decide, by decide⟩

/-! ## C9 -/

/-- C9 counterexample: the fully-qualified (unquoted) query
`SELECT * FROM x.a` with allow-list `["s.x", "x.a"]` is NOT left alone by the
qualifier — the regex matches only the bare word `x` (the `.a` tail breaks the
trailing word boundary for the full `x.a`), `x` resolves uniquely to `s.x`,
and the output `SELECT * FROM "s"."x".a` validates differently from the
original: the found-table set changes from `[x.a]` to `[s.x]`. -/
theorem c9_counterexample :
    qualifySqlTables "SELECT * FROM x.a" ["s.x", "x.a"] =
      "SELECT * FROM \"s\".\"x\".a" ∧
    validateSqlTables (qualifySqlTables "SELECT * FROM x.a" ["s.x", "x.a"])
        ["s.x", "x.a"] ≠
      validateSqlTables "SELECT * FROM x.a" ["s.x", "x.a"] ∧
    (validateSqlTables "SELECT * FROM x.a" ["s.x", "x.a"]).foundTables = ["x.a"] ∧
    (validateSqlTables (qualifySqlTables "SELECT * FROM x.a" ["s.x", "x.a"])
        ["s.x", "x.a"]).foundTables = ["s.x"] := by
  refine ⟨by decide, by decide, by decide, by decide⟩

/-- C9 (amended): when every FROM/JOIN target the qualifier's regex matches is
already in two-part (`schema.table`) form — which holds for quoted-form
qualified SQL, but not for every unquoted `schema.table` reference — the
qualifier's replace is the identity, so validating the qualified SQL equals
validating the original SQL. -/
theorem c9_validate_qualify_idempotent (sql : String) (allowedTables : List String)
    (h : ∀ raw ∈ qualifierTargets sql allowedTables, (strippedParts raw).length = 2) :
    validateSqlTables (qualifySqlTables sql allowedTables) allowedTables =
      validateSqlTables sql allowedTables := by
  have hid : qualifyGo (uniqueFq allowedTables) 0 false sql.data = sql.data :=
    qualifyGo_id (uniqueFq allowedTables) sql.data.length sql.data le_rfl false
      (fun raw hr => by rw [h raw hr]; decide)
  have hq : qualifySqlTables sql allowedTables = sql := by
    rw [qualifySqlTables, hid]
  rw [hq]

/-- C9 witness: a query whose sole qualifier-matched target is the
fully-qualified `"public"."producto"`. -/
theorem c9_witness :
    (∀ raw ∈ qualifierTargets "SELECT x FROM \"public\".\"producto\"x" ["public.producto"],
      (strippedParts raw).length = 2) ∧
    validateSqlTables
        (qualifySqlTables "SELECT x FROM \"public\".\"producto\"x" ["public.producto"])
        ["public.producto"] =
      validateSqlTables "SELECT x FROM \"public\".\"producto\"x" ["public.producto"] :=
  ⟨by decide, c9_validate_qualify_idempotent _ _ (by decide)⟩

/-! ## C2 -/

/-- C2 counterexample: a SQL string failing re-validation yields the
"blocked execution" diagnostic with empty rows and no database call, but the
executor's returned update carries no `UNKNOWN_TABLES` error tag — its
`error` field is `none` — contradicting the claim that the diagnostic is
tagged with error kind `UNKNOWN_TABLES`. -/
theorem c2_counterexample :
    (validateSqlTables "SELECT * FROM public.nope" ["public.t"]).ok = false ∧
    (nodeExecuteSQL (fun _ => Except.ok []) "SELECT * FROM public.nope" ["public.t"]).answer =
      some "Blocked execution. Unknown tables: public.nope" ∧
    (nodeExecuteSQL (fun _ => Except.ok []) "SELECT * FROM public.nope" ["public.t"]).rows = [] ∧
    (nodeExecuteSQL (fun _ => Except.ok []) "SELECT * FROM public.nope" ["public.t"]).dbCalls
      = [] ∧
    (nodeExecuteSQL (fun _ => Except.ok []) "SELECT * FROM public.nope" ["public.t"]).error
      = none := by
  refine ⟨by decide, by decide, by decide, by decide, by decide⟩

/-- C2 (amended): for every SQL string that fails re-validation at execution
time, the executor returns empty rows and a "blocked execution" diagnostic
answer without invoking the database capability; the executor's update sets
no error tag. -/
theorem c2_blocked_execution_skips_db (db : Db) (sql : String) (allowedTables : List String)
    (h : (validateSqlTables sql allowedTables).ok = false) :
    nodeExecuteSQL db sql allowedTables =
      { rows := []
        answer := some (if (validateSqlTables sql allowedTables).noneFound then
            "Blocked execution. SQL must reference at least one fully-qualified allowed table."
          else "Blocked execution. Unknown tables: " ++
            joinComma (validateSqlTables sql allowedTables).unknown)
        error := none
        dbCalls := [] } := by
  simp only [nodeExecuteSQL, h, Bool.false_eq_true, if_false]

/-- C2 witness. -/
theorem c2_witness :
    nodeExecuteSQL (fun _ => Except.ok []) "SELECT * FROM public.nope" ["public.t"] =
      { rows := []
        answer := some
          (if (validateSqlTables "SELECT * FROM public.nope" ["public.t"]).noneFound then
            "Blocked execution. SQL must reference at least one fully-qualified allowed table."
          else "Blocked execution. Unknown tables: " ++
            joinComma (validateSqlTables "SELECT * FROM public.nope" ["public.t"]).unknown)
        error := none
        dbCalls := [] } :=
  c2_blocked_execution_skips_db (fun _ => Except.ok []) "SELECT * FROM public.nope"
    ["public.t"] (by decide)

/-! ## C5 -/

/-- C5: when a validated query executes successfully and returns zero rows,
the executor issues the `COUNT(*)` query against the first table of
`foundTables` and returns empty rows with the answer
`No results. Diagnostics: "schema"."table" has N rows.`, where N is the
count extracted from the follow-up query's first row. -/
theorem c5_empty_result_count_diagnostics (db : Db) (sql : String)
    (allowedTables : List String) (first : String) (crows : List Row)
    (hok : (validateSqlTables sql allowedTables).ok = true)
    (hfirst : (validateSqlTables sql allowedTables).foundTables.head? = some first)
    (hne : first ≠ "")
    (hdb : db sql = Except.ok [])
    (hcount : db (countQuerySql (splitFirstTwo first).1 (splitFirstTwo first).2) =
      Except.ok crows) :
    nodeExecuteSQL db sql allowedTables =
      { rows := []
        answer := some ("No results. Diagnostics: \"" ++ (splitFirstTwo first).1 ++ "\".\"" ++
          (splitFirstTwo first).2 ++ "\" has " ++ jsValToString (extractCount crows) ++ " rows.")
        error := none
        dbCalls := [sql, countQuerySql (splitFirstTwo first).1 (splitFirstTwo first).2] } := by
  obtain ⟨tl, htl⟩ : ∃ tl, (validateSqlTables sql allowedTables).foundTables = first :: tl := by
    cases hft : (validateSqlTables sql allowedTables).foundTables with
    | nil => rw [hft] at hfirst; simp at hfirst
    | cons a b =>
      rw [hft] at hfirst
      simp only [List.head?_cons, Option.some.injEq] at hfirst
      exact ⟨b, by rw [hfirst]⟩
  simp only [nodeExecuteSQL, hok, if_true, hdb, htl, List.length_nil, Nat.zero_eq,
    beq_self_eq_true, hne, if_false, hcount]

/-- C5 witness: a validated single-table query returning zero rows, with the
count query answering 42. -/
theorem c5_witness :
    nodeExecuteSQL
      (fun q => if q = "SELECT * FROM public.producto" then Except.ok []
        else if q = countQuerySql "public" "producto" then
          Except.ok [[("count", JsVal.num 42)]]
        else Except.error "unexpected")
      "SELECT * FROM public.producto" ["public.producto"] =
      { rows := []
        answer := some ("No results. Diagnostics: \"" ++ (splitFirstTwo "public.producto").1 ++
          "\".\"" ++ (splitFirstTwo "public.producto").2 ++ "\" has " ++
          jsValToString (extractCount [[("count", JsVal.num 42)]]) ++ " rows.")
        error := none
        dbCalls := ["SELECT * FROM public.producto",
          countQuerySql (splitFirstTwo "public.producto").1
            (splitFirstTwo "public.producto").2] } :=
  c5_empty_result_count_diagnostics _ "SELECT * FROM public.producto" ["public.producto"]
    "public.producto" [[("count", JsVal.num 42)]]
    (by decide) (by decide) (by decide) (by rfl) (by rfl)

/-! ## C6 -/

/-- C6: a database error raised by the executed query is caught and turned
into empty rows plus the diagnostic answer `DB error: <message>` (an empty
message falls back to "Database error"); the node returns this update
normally instead of propagating a failure, and no follow-up query runs. -/
theorem c6_db_error_caught (db : Db) (sql : String) (allowedTables : List String) (m : String)
    (hok : (validateSqlTables sql allowedTables).ok = true)
    (hdb : db sql = Except.error m) :
    nodeExecuteSQL db sql allowedTables =
      { rows := [], answer := some ("DB error: " ++ dbErrMessage m), error := none
        dbCalls := [sql] } := by
  simp only [nodeExecuteSQL, hok, if_true, hdb]

/-- C6 witness. -/
theorem c6_witness :
    nodeExecuteSQL (fun _ => Except.error "connection lost")
      "SELECT * FROM public.producto" ["public.producto"] =
      { rows := [], answer := some ("DB error: " ++ dbErrMessage "connection lost")
        error := none, dbCalls := ["SELECT * FROM public.producto"] } :=
  c6_db_error_caught (fun _ => Except.error "connection lost")
    "SELECT * FROM public.producto" ["public.producto"] "connection lost"
    (by decide) (by rfl)

/-! ## C7 -/

/-- C7: a question that is empty or consists only of whitespace is rejected
with `ok = false` before the pipeline runs — the agent (and through it the
database and completion capabilities) is never invoked. -/
theorem c7_blank_question_rejected (agent : String → AgentResult) (q : String)
    (h : ∀ c ∈ q.data, isJsSpace c = true) :
    ask agent q =
      ({ ok := false, message := some "Missing query parameter q", question := none
         sql := none, answer := none, rows := none }, []) := by
  have hd : q.data.dropWhile isJsSpace = [] :=
    List.dropWhile_eq_nil_iff.mpr h
  have ht : jsTrim q = "" := by
    simp [jsTrim, hd]
  simp [ask, ht]

/-- C7 witness: a whitespace-only question. -/
theorem c7_witness :
    ask (fun _ => { sql := "", answer := "", rows := [] }) " \t " =
      ({ ok := false, message := some "Missing query parameter q", question := none
         sql := none, answer := none, rows := none }, []) :=
  c7_blank_question_rejected (fun _ => { sql := "", answer := "", rows := [] }) " \t "
    (by decide)

/-! ## C8 -/

/-- C8: the numeric coercion maps the locale-formatted string "1.234,56" to
1234.56, whose currency rendering rounds to the nearest whole unit with
thousands grouping and no decimals ("$1.235" in the fixed es-CL locale,
the equivalent of "$1,235"), and the negated value renders with an explicit
leading negative sign as "-$1.235". -/
theorem c8_coercion_and_currency_format :
    toNumberMaybe (JsVal.str "1.234,56") = some ((123456 : ℚ) / 100) ∧
    formatCLP ((123456 : ℚ) / 100) = "$1.235" ∧
    formatCLP (-((123456 : ℚ) / 100)) = "-$1.235" := by
  have hround : jsMathRound ((123456 : ℚ) / 100) = 1235 := by
    rw [jsMathRound, Int.floor_eq_iff]
    norm_num
  have hroundNeg : jsMathRound (-((123456 : ℚ) / 100)) = -1235 := by
    rw [jsMathRound, Int.floor_eq_iff]
    norm_num
  refine ⟨?_, ?_, ?_⟩
  · have hmap : ((("1.234,56".data.filter (fun c => !isJsSpace c)).filter
        (fun c => c != '.')).map (fun c => if c = ',' then '.' else c)) = "1234.56".data := by
      decide
    have hsp : splitRun Char.isDigit ['1', '2', '3', '4', '.', '5', '6'] =
        (['1', '2', '3', '4'], ['.', '5', '6']) := by decide
    have hsp2 : splitRun Char.isDigit ['5', '6'] = (['5', '6'], []) := by decide
    have hd1 : digitsVal ['1', '2', '3', '4'] = 1234 := by decide
    have hd2 : digitsVal ['5', '6'] = 56 := by decide
    simp only [toNumberMaybe, hmap]
    simp +decide [jsNumber, hsp, hsp2, hd1, hd2, parseExp]
    norm_num
  · rw [formatCLP, hround]
    decide
  · rw [formatCLP, hroundNeg]
    decide

end SqlAgent
